import Mathlib

/-!
Verification of the t-digest implementation in `TDigest.h` (namespace `tdigest`).

The source is shallowly embedded over exact rationals (`ℚ` stands for the C++
`double`; the claims under study are about control flow, list structure and
order comparisons, none of which depend on rounding).  The two transcendental
scale functions `integratedLocation` (`asin`-based) and `integratedQ`
(`sin`-based) are abstracted as an arbitrary pair of rational functions
(structure `ScaleFns`): every general theorem below holds for an arbitrary
pair, hence in particular for the source's sine-based pair.  The concrete
evaluations only ever depend on the fact `integratedQ 1 ≤ 1`, which the
source's `(sin _ + 1) / 2` satisfies; they are stated at an explicit stand-in
pair `stubScale`.

Out-of-bounds vector accesses in the source (`unprocessed_[0]` on an empty
vector in `process`, and dereferencing the end iterator of the digest's own
empty `processed_` cursor in `mergeProcessed`) are modelled by returning
`none`: `none` marks exactly the states in which the C++ has undefined
behaviour.

C++ `CHECK`/`LOG` calls are diagnostics: the `CHECK`s in `quantileProcessed`
and `weightedAverageSorted` are provably satisfied on the paths modelled here
(comments at the definitions), and logging has no effect on state.
-/

set_option maxRecDepth 8000

namespace TDigestSpec

attribute [local semireducible] Rat.add Rat.mul Rat.sub Rat.inv Rat.ofScientific

/-- `Centroid`: a weighted point (`mean_`, `weight_`), `TDigest.h` lines 19-36. -/
structure Centroid where
  mean : ℚ
  weight : ℚ
deriving DecidableEq, Repr

/-- Comparison by mean, the order used by `CentroidComparator` (line 57) and
`std::inplace_merge`/`std::sort` inside `process`.  The source compares with
strict `<`; sortedness of the output is the non-strict `≤` stated here. -/
def meanLE (a b : Centroid) : Prop := a.mean ≤ b.mean

instance : DecidableRel meanLE := fun a b => inferInstanceAs (Decidable (a.mean ≤ b.mean))

instance : IsTotal Centroid meanLE := ⟨fun a b => le_total a.mean b.mean⟩

instance : IsTrans Centroid meanLE := ⟨fun _ _ _ hab hbc => le_trans hab hbc⟩

/-- `Centroid::add` (lines 27-31): `weight_ += c.weight_;
`mean_ += c.weight_ * (c.mean_ - mean_) / weight_` — the division is by the
updated weight.  (The `CHECK_GT(c.weight_, 0)` precondition holds at every
call site reachable below, proved as part of the positivity invariant.) -/
def centroidAdd (a c : Centroid) : Centroid :=
  { mean := a.mean + c.weight * (c.mean - a.mean) / (a.weight + c.weight),
    weight := a.weight + c.weight }

/-- Fuel-indexed two-way merge of mean-sorted lists; `mergeByMean` below seeds
the fuel with the combined length, which never runs out.  The tie
behaviour (element of the first list first) models the stability of
`std::inplace_merge` with comparator `mean <`. -/
def mergeFuel : ℕ → List Centroid → List Centroid → List Centroid
  | 0, l1, l2 => l1 ++ l2
  | _ + 1, [], l2 => l2
  | _ + 1, a :: l1, [] => a :: l1
  | n + 1, a :: l1, b :: l2 =>
    if b.mean < a.mean then b :: mergeFuel n (a :: l1) l2
    else a :: mergeFuel n l1 (b :: l2)

/-- Merge of two mean-sorted centroid lists: `std::inplace_merge` with
`CentroidComparator` (line 371). -/
def mergeByMean (l1 l2 : List Centroid) : List Centroid :=
  mergeFuel (l1.length + l2.length) l1 l2

/-- The k-way sorted merge of `mergeProcessed` (lines 329-355).  The source
pops a minimum-mean cursor from a priority queue; since the queue order among
equal means is unspecified (spec: "no cross-source tie-break guarantee"), the
output is modelled as the left fold of two-way sorted merges, one valid
outcome of the heap order. -/
def kwayMerge (ls : List (List Centroid)) : List Centroid :=
  ls.foldl mergeByMean []

/-- The fields of `TDigest` (lines 273-291) that vary at run time.
`compression_`, `maxProcessed_`, `maxUnprocessed_` are immutable after
construction and live in `Params` below. -/
structure TDigestState where
  min : ℚ
  max : ℚ
  processedWeight : ℚ
  unprocessedWeight : ℚ
  processed : List Centroid
  unprocessed : List Centroid
  dirty : Bool
deriving DecidableEq, Repr

/-- `std::numeric_limits<double>::max()` = (2 - 2^-52)·2^1023, the initial
value of `min` (line 275). -/
def dblMax : ℚ := ((2 ^ 1024 - 2 ^ 971 : ℕ) : ℚ)

/-- `std::numeric_limits<double>::min()` = 2^-1022, the smallest positive
normalised double — NOT the most negative double — the initial value of
`max` (line 277). -/
def dblMin : ℚ := mkRat 1 (2 ^ 1022)

/-- A freshly constructed digest: empty buffers, zero weights, clean
(lines 275-291 field initialisers; the constructors only reserve capacity). -/
def freshState : TDigestState :=
  { min := dblMax, max := dblMin, processedWeight := 0, unprocessedWeight := 0,
    processed := [], unprocessed := [], dirty := false }

/-- Immutable configuration: `compression_`, `maxProcessed_`, `maxUnprocessed_`. -/
structure Params where
  compression : ℚ
  maxProcessed : ℕ
  maxUnprocessed : ℕ
deriving DecidableEq, Repr

/-- `TDigest::processedSize` (line 82): default `2 * ceil(compression)`. -/
def processedSize (size : ℕ) (compression : ℚ) : ℕ :=
  if size = 0 then (2 * ⌈compression⌉).toNat else size

/-- `TDigest::unprocessedSize` (line 86): default `8 * ceil(compression)`. -/
def unprocessedSize (size : ℕ) (compression : ℚ) : ℕ :=
  if size = 0 then (8 * ⌈compression⌉).toNat else size

/-- The three-argument constructor's parameter block (lines 67-73). -/
def mkParams (compression : ℚ) (unmergedSize mergedSize : ℕ) : Params :=
  { compression := compression,
    maxProcessed := processedSize mergedSize compression,
    maxUnprocessed := unprocessedSize unmergedSize compression }

/-- `TDigest(compression)` — both buffer sizes defaulted (line 63). -/
def defaultParams (compression : ℚ) : Params := mkParams compression 0 0

/-- The scale-function pair of the digest (lines 443-449):
`integratedLocation q = compression * (asin(2q-1) + π/2) / π` and
`integratedQ k = (sin(min(k, compression) * π/compression - π/2) + 1) / 2`.
Abstracted as an arbitrary pair of rational functions; all general theorems
hold for every pair, so in particular for the source's sine-based pair. -/
structure ScaleFns where
  integratedLocation : ℚ → ℚ
  integratedQ : ℚ → ℚ

/-- Stand-in scale pair used for closed evaluations.  The only property of
the source's pair any evaluation below depends on is `integratedQ 1 ≤ 1`,
which holds for `(sin _ + 1) / 2`; the stub satisfies it as well, so each
concrete run takes the same branches as the sine-based source. -/
def stubScale : ScaleFns :=
  { integratedLocation := fun _ => 0, integratedQ := fun _ => 1 / 2 }

/-- Mean of `processed_[0]` (`processed_[0].mean()`, line 395); 0 on the empty
list, where the source would be out of bounds (only used under a nonemptiness
guard). -/
def firstMean : List Centroid → ℚ
  | [] => 0
  | c :: _ => c.mean

/-- Mean of the last centroid (`(processed_.cend() - 1)->mean()`, line 396 and
`mean(n - 1)`); 0 on the empty list (only used under a nonemptiness guard). -/
def lastMean : List Centroid → ℚ
  | [] => 0
  | [c] => c.mean
  | _ :: c :: rest => lastMean (c :: rest)

/-- Weight of the last centroid (`weight(n - 1)`). -/
def lastWeight : List Centroid → ℚ
  | [] => 0
  | [c] => c.weight
  | _ :: c :: rest => lastWeight (c :: rest)

/-- The greedy clustering loop of `process` (lines 381-392).  `cur` is the
cluster currently at the back of `processed_`, `done` holds the closed
clusters in reverse order.  NOTE the loop argument: the source iterates
`for (auto& centroid : unprocessed_)` over the WHOLE combined buffer,
including the element `unprocessed_[0]` that was already pushed as the seed
(line 377) — the first element is processed twice.  This is modelled
faithfully: `processState` below passes the full combined list. -/
def clusterLoop (sf : ScaleFns) (pw : ℚ) :
    List Centroid → Centroid → List Centroid → ℚ → ℚ → List Centroid
  | [], cur, done, _, _ => (cur :: done).reverse
  | c :: rest, cur, done, wSoFar, wLimit =>
    if wSoFar + c.weight ≤ wLimit then
      clusterLoop sf pw rest (centroidAdd cur c) done (wSoFar + c.weight) wLimit
    else
      clusterLoop sf pw rest c (cur :: done) (wSoFar + c.weight)
        (pw * sf.integratedQ (sf.integratedLocation (wSoFar / pw) + 1))

/-- The state built by `process` (lines 373-396) once the combined buffer is
known to be `c0 :: rest`: new `processedWeight`, clustering seeded at `c0`
with `wSoFar = c0.weight` and `wLimit = processedWeight * integratedQ(1.0)`,
then `min`/`max` updated from the first/last new centroid. -/
def processedFrom (sf : ScaleFns) (st : TDigestState) (c0 : Centroid) (rest : List Centroid) :
    TDigestState :=
  { min := min st.min
      (firstMean (clusterLoop sf (st.processedWeight + st.unprocessedWeight) (c0 :: rest) c0 []
        c0.weight ((st.processedWeight + st.unprocessedWeight) * sf.integratedQ 1))),
    max := max st.max
      (lastMean (clusterLoop sf (st.processedWeight + st.unprocessedWeight) (c0 :: rest) c0 []
        c0.weight ((st.processedWeight + st.unprocessedWeight) * sf.integratedQ 1))),
    processedWeight := st.processedWeight + st.unprocessedWeight,
    unprocessedWeight := 0,
    processed := clusterLoop sf (st.processedWeight + st.unprocessedWeight) (c0 :: rest) c0 []
      c0.weight ((st.processedWeight + st.unprocessedWeight) * sf.integratedQ 1),
    unprocessed := [],
    dirty := false }

/-- `TDigest::process` (lines 365-397): early return when clean; sort the
unprocessed buffer by mean, two-way merge with the sorted processed list;
then seed the clustering with element 0 of the combined buffer.  When the
combined buffer is empty the source evaluates `unprocessed_[0]` out of
bounds — modelled as `none`. -/
def processState (sf : ScaleFns) (st : TDigestState) : Option TDigestState :=
  if st.dirty = false then some st
  else
    match mergeByMean (List.insertionSort meanLE st.unprocessed) st.processed with
    | [] => none
    | c0 :: rest => some (processedFrom sf st c0 rest)

/-- The capacity test of `processIfNecessary` (line 358). -/
def overCapacity (p : Params) (st : TDigestState) : Bool :=
  decide (p.maxUnprocessed < st.unprocessed.length) ||
    decide (p.maxProcessed < st.processed.length)

/-- `TDigest::processIfNecessary` (lines 357-361), which is also the whole
body of the public `compress()` (line 270). -/
def processIfNecessary (sf : ScaleFns) (p : Params) (st : TDigestState) : Option TDigestState :=
  if overCapacity p st then processState sf st else some st

/-- A `double` argument: `none` is NaN, `some v` a (finite) value `v`. -/
abbrev Val := Option ℚ

/-- Private `TDigest::add(Value x, Weight w)` (lines 301-310): reject NaN
before any mutation; otherwise push `Centroid(x, w)`, add `w` to
`unprocessedWeight_`, set `dirty_` and run `processIfNecessary`.  The public
`add(Value x)` (line 268) is `addCentroid sf p x 1`. -/
def addCentroid (sf : ScaleFns) (p : Params) (x : Val) (w : ℚ) (st : TDigestState) :
    Bool × Option TDigestState :=
  match x with
  | none => (false, some st)
  | some v =>
    (true, processIfNecessary sf p
      { st with unprocessed := st.unprocessed ++ [{ mean := v, weight := w }],
                unprocessedWeight := st.unprocessedWeight + w,
                dirty := true })

/-- `static_cast<long>` of a `double`: truncation toward zero. -/
def castLong (x : ℚ) : ℤ := if 0 ≤ x then ⌊x⌋ else ⌈x⌉

/-- `TDigest::totalWeight` (line 113). -/
def totalWeight (st : TDigestState) : ℤ :=
  castLong (st.processedWeight + st.unprocessedWeight)

/-- `TDigest::mergeProcessed` (lines 329-355): cursors for the OTHER digests'
processed lists are pushed only when nonempty (`if (size > 0)`, line 337) and
their `processedWeight_` summed, but the cursor for THIS digest's own
`processed_` is pushed unconditionally (line 343).  When `processed_` is
empty that cursor's iterator equals its end iterator, and both the queue
comparator and the pop loop dereference it — an out-of-bounds read, modelled
as `none`. -/
def mergeProcessedModel (others : List TDigestState) (st : TDigestState) :
    Option (List Centroid × ℚ) :=
  if st.processed.isEmpty then none
  else
    some (kwayMerge (((others.map TDigestState.processed).filter fun l => !l.isEmpty) ++
            [st.processed]),
      st.processedWeight +
        (((others.filter fun o => !o.processed.isEmpty).map TDigestState.processedWeight).sum))

/-- `TDigest::add(const std::vector<TDigest>)` (lines 104-111): when the
vector is nonempty, `mergeProcessed`, then `mergeUnprocessed` (concatenating
every other digest's unprocessed buffer and summing every
`unprocessedWeight_`, lines 313-326), then set `dirty_` and
`processIfNecessary`. -/
def addDigests (sf : ScaleFns) (p : Params) (others : List TDigestState) (st : TDigestState) :
    Option TDigestState :=
  if others.isEmpty then some st
  else
    match mergeProcessedModel others st with
    | none => none
    | some (proc, pw) =>
      processIfNecessary sf p
        { st with processed := proc, processedWeight := pw,
                  unprocessed := st.unprocessed ++ (others.map TDigestState.unprocessed).flatten,
                  unprocessedWeight :=
                    st.unprocessedWeight + ((others.map TDigestState.unprocessedWeight).sum),
                  dirty := true }

/-- `TDigest::merge(const TDigest&)` (lines 91-94): wrap the other digest in
a one-element vector and `add` it. -/
def mergeOne (sf : ScaleFns) (p : Params) (st other : TDigestState) : Option TDigestState :=
  addDigests sf p [other] st

/-- `weightedAverageSorted` (lines 467-471): `clamp((x1 w1 + x2 w2)/(w1 + w2), x1, x2)`.
Its `CHECK_LE(x1, x2)` holds at every call because `weightedAverage` orders
the pair first. -/
def weightedAverageSorted (x1 w1 x2 w2 : ℚ) : ℚ :=
  max x1 (min ((x1 * w1 + x2 * w2) / (w1 + w2)) x2)

/-- `weightedAverage` (lines 456-458). -/
def weightedAverage (x1 w1 x2 w2 : ℚ) : ℚ :=
  if x1 ≤ x2 then weightedAverageSorted x1 w1 x2 w2 else weightedAverageSorted x2 w2 x1 w1

/-- The centroid-pair walk of `quantileProcessed` (lines 245-263).  `ci` is
centroid `i`, the list argument the centroids after it, `wSoFar` the
accumulated half-weight boundary.  When the list is exhausted the source
computes the final segment with `z1 = index - processedWeight_ - weight(n-1)/2.0`
(line 260) — `index - W - w/2`, as written, with no parentheses around
`processedWeight_ - weight(n-1)/2.0` — and returns
`weightedAverage(mean(n-1), z1, max, z2)`.  That is modelled verbatim.
(The two `CHECK`s before it hold: `index ≤ processedWeight_` since `q ≤ 1`,
and `index ≥ processedWeight_ - weight(n-1)/2` since the loop found no
bracket.) -/
def qLoop (index maxV W : ℚ) : Centroid → List Centroid → ℚ → ℚ
  | ci, cj :: rest, wSoFar =>
    if index < wSoFar + (ci.weight + cj.weight) / 2 then
      weightedAverage ci.mean (wSoFar + (ci.weight + cj.weight) / 2 - index) cj.mean
        (index - wSoFar)
    else qLoop index maxV W cj rest (wSoFar + (ci.weight + cj.weight) / 2)
  | ci, [], _ =>
    weightedAverage ci.mean (index - W - ci.weight / 2) maxV
      (ci.weight / 2 - (index - W - ci.weight / 2))

/-- `TDigest::quantileProcessed` (lines 214-264).  Returns (value, success);
the source writes `*success` and returns the value.  `q` outside `[0,1]` and
the empty digest fail with value `0.0`; one centroid returns its mean; with
at least two centroids, `index = q * processedWeight_`, first-half-weight
interpolation between `min` and `mean(0)` (its `CHECK_GT(weight(0), 0)` holds
under the positivity invariant), otherwise the pair walk. -/
def quantileProcessed (st : TDigestState) (q : ℚ) : ℚ × Bool :=
  if q < 0 ∨ 1 < q then (0, false)
  else
    match st.processed with
    | [] => (0, false)
    | [c] => (c.mean, true)
    | c0 :: c1 :: rest =>
      if q * st.processedWeight < c0.weight / 2 then
        (st.min + 2 * (q * st.processedWeight) / c0.weight * (c0.mean - st.min), true)
      else
        (qLoop (q * st.processedWeight) st.max st.processedWeight c0 (c1 :: rest)
          (c0.weight / 2), true)

/-- `TDigest::quantile` (lines 207-210): `process()` then `quantileProcessed`.
The returned state is the digest after the call; `none` when `process` hits
its empty-buffer out-of-bounds access. -/
def quantileModel (sf : ScaleFns) (st : TDigestState) (q : ℚ) :
    Option (ℚ × Bool × TDigestState) :=
  match processState sf st with
  | none => none
  | some st2 => some ((quantileProcessed st2 q).1, (quantileProcessed st2 q).2, st2)

/-- The inner `while (it < n && mean(it + 1) == x)` of `cdfProcessed`
(lines 183-186), absorbing consecutive centroids whose mean equals `x` into
`weightSoFar`; returns the final `weightSoFar`.  (When the list runs out the
source's `mean(it + 1)` would read one past the end; under the caller's
`x < mean(n-1)` guard the walk always stops earlier.) -/
def absorbEqual (x : ℚ) : Centroid → List Centroid → ℚ → ℚ
  | ci, cj :: rest, wSoFar =>
    if cj.mean = x then absorbEqual x cj rest (wSoFar + (ci.weight + cj.weight))
    else wSoFar
  | _, [], wSoFar => wSoFar

/-- The interior walk of `cdfProcessed` (lines 179-202): at each pair, first
the exact-match block, then the bracketing test `mean(it) <= x && mean(it+1) > x`
with its zero-width fallback (the source's line 198 returns
`weightSoFar + dw / processedWeight_`, with the division binding to `dw`
alone — modelled verbatim), else accumulate the half-weight and advance.
The `[]` case is unreachable under the guards `mean(0) < x < mean(n-1)`
(falling through the loop would be undefined behaviour in the source);
it returns 0 here. -/
def cdfLoop (x W : ℚ) : Centroid → List Centroid → ℚ → ℚ
  | ci, cj :: rest, wSoFar =>
    if ci.mean = x then (wSoFar + absorbEqual x ci (cj :: rest) wSoFar) / 2 / W
    else if ci.mean ≤ x ∧ x < cj.mean then
      if 0 < cj.mean - ci.mean then
        (wSoFar + (ci.weight + cj.weight) / 2 * (x - ci.mean) / (cj.mean - ci.mean)) / W
      else wSoFar + (ci.weight + cj.weight) / 2 / W
    else cdfLoop x W cj rest (wSoFar + (ci.weight + cj.weight) / 2)
  | ci, [], wSoFar =>
    if ci.mean = x then (wSoFar + absorbEqual x ci [] wSoFar) / 2 / W else 0

/-- `TDigest::cdfProcessed` (lines 125-204).  Empty digest fails; one
centroid: the `min`/`max` window with the degenerate `x - min <= width`
branch returning `0.5`; at least two centroids: the `min`/`max` clamps, the
half-weight left and right tails, then the interior walk seeded with
`weightSoFar = weight(0)/2`. -/
def cdfProcessed (st : TDigestState) (x : ℚ) : ℚ × Bool :=
  match st.processed with
  | [] => (0, false)
  | [_] =>
    if x < st.min then (0, true)
    else if st.max < x then (1, true)
    else if x - st.min ≤ st.max - st.min then (1 / 2, true)
    else ((x - st.min) / (st.max - st.min), true)
  | c0 :: c1 :: rest =>
    if x ≤ st.min then (0, true)
    else if st.max ≤ x then (1, true)
    else if x ≤ c0.mean then
      if 0 < c0.mean - st.min then
        ((x - st.min) / (c0.mean - st.min) * c0.weight / st.processedWeight / 2, true)
      else (0, true)
    else if lastMean (c0 :: c1 :: rest) ≤ x then
      if 0 < st.max - lastMean (c0 :: c1 :: rest) then
        (1 - (st.max - x) / (st.max - lastMean (c0 :: c1 :: rest)) *
          lastWeight (c0 :: c1 :: rest) / st.processedWeight / 2, true)
      else (1, true)
    else (cdfLoop x st.processedWeight c0 (c1 :: rest) (c0.weight / 2), true)

/-- `TDigest::cdf` (lines 116-119): `process()` then `cdfProcessed`. -/
def cdfModel (sf : ScaleFns) (st : TDigestState) (x : ℚ) :
    Option (ℚ × Bool × TDigestState) :=
  match processState sf st with
  | none => none
  | some st2 => some ((cdfProcessed st2 x).1, (cdfProcessed st2 x).2, st2)

/-- Digest states reachable through the public interface from a freshly
constructed digest: `add(Value)` (weight 1), `merge`/`add(vector<TDigest>)`
with other digests that are themselves reachable (each with its own scale
pair and parameters, assigned by `osf`/`op`), explicit `compress()`
(= `processIfNecessary`), and the `process()` forced by any `quantile`/`cdf`
query.  The raw five-argument constructor that installs arbitrary vectors is
not part of this relation. -/
inductive Reachable : ScaleFns → Params → TDigestState → Prop where
  | fresh (sf : ScaleFns) (p : Params) : Reachable sf p freshState
  | addStep {sf : ScaleFns} {p : Params} {st : TDigestState} (x : Val) {b : Bool}
      {st2 : TDigestState} : Reachable sf p st →
      addCentroid sf p x 1 st = (b, some st2) → Reachable sf p st2
  | mergeStep {sf : ScaleFns} {p : Params} {st : TDigestState} (others : List TDigestState)
      (osf : TDigestState → ScaleFns) (op : TDigestState → Params) {st2 : TDigestState} :
      Reachable sf p st →
      (∀ o ∈ others, Reachable (osf o) (op o) o) →
      addDigests sf p others st = some st2 → Reachable sf p st2
  | compressStep {sf : ScaleFns} {p : Params} {st st2 : TDigestState} :
      Reachable sf p st → processIfNecessary sf p st = some st2 → Reachable sf p st2
  | queryStep {sf : ScaleFns} {p : Params} {st st2 : TDigestState} :
      Reachable sf p st → processState sf st = some st2 → Reachable sf p st2

/-- The structural invariant carried through every reachable state: the
processed list is sorted ascending by mean, all stored weights are positive,
and in every Clean state the processed means lie between `min` and `max`. -/
def Inv (st : TDigestState) : Prop :=
  List.Sorted meanLE st.processed ∧
  (∀ c ∈ st.processed, 0 < c.weight) ∧
  (∀ c ∈ st.unprocessed, 0 < c.weight) ∧
  (st.dirty = false → ∀ c ∈ st.processed, st.min ≤ c.mean ∧ c.mean ≤ st.max)

/-- `defaultParams 1`: `maxProcessed = 2`, `maxUnprocessed = 8`. -/
def p1 : Params := defaultParams 1

/-- `defaultParams 2`: `maxProcessed = 4`, `maxUnprocessed = 16`. -/
def p2 : Params := defaultParams 2

/-- Explicit-capacity parameters (three-argument constructor with sizes 1, 1):
used to exhibit an over-capacity state. -/
def pTiny : Params := mkParams 1 1 1

/-- The digest right after `add(5.0)` on a fresh digest: one unprocessed
sample, Dirty, under capacity. -/
def st5 : TDigestState :=
  { min := dblMax, max := dblMin, processedWeight := 0, unprocessedWeight := 1,
    processed := [], unprocessed := [{ mean := 5, weight := 1 }], dirty := true }

/-- `st5` after `process()`: with the first combined element seeded AND
iterated over again, the single sample 5 appears as TWO unit-weight
centroids, while `processedWeight_` is 1. -/
def d5 : TDigestState :=
  { min := 5, max := 5, processedWeight := 1, unprocessedWeight := 0,
    processed := [{ mean := 5, weight := 1 }, { mean := 5, weight := 1 }],
    unprocessed := [], dirty := false }

/-- The digest right after `add(1.0)` on a fresh digest. -/
def st1 : TDigestState :=
  { min := dblMax, max := dblMin, processedWeight := 0, unprocessedWeight := 1,
    processed := [], unprocessed := [{ mean := 1, weight := 1 }], dirty := true }

/-- `st1` after `process()` (same duplication as `d5`). -/
def d1 : TDigestState :=
  { min := 1, max := 1, processedWeight := 1, unprocessedWeight := 0,
    processed := [{ mean := 1, weight := 1 }, { mean := 1, weight := 1 }],
    unprocessed := [], dirty := false }

/-- `d5.merge(d1)` at compression 2 (no compress triggered: 4 processed
centroids is not over `maxProcessed = 4`): the merged processed list now
holds means 1 below `min = 5`, and the digest is left Dirty. -/
def stBad : TDigestState :=
  { min := 5, max := 5, processedWeight := 2, unprocessedWeight := 0,
    processed := [{ mean := 1, weight := 1 }, { mean := 1, weight := 1 },
      { mean := 5, weight := 1 }, { mean := 5, weight := 1 }],
    unprocessed := [], dirty := true }

/-- A Dirty digest over capacity for `pTiny` (two buffered samples with
`maxUnprocessed = 1`). -/
def stOver : TDigestState :=
  { min := dblMax, max := dblMin, processedWeight := 0, unprocessedWeight := 2,
    processed := [], unprocessed := [{ mean := 5, weight := 1 }, { mean := 6, weight := 1 }],
    dirty := true }

/-- Both buffers empty but Dirty — the state the spec's "merging only empty
digests" scenario produces, on which `process` must be a guarded no-op. -/
def stEmptyDirty : TDigestState :=
  { min := dblMax, max := dblMin, processedWeight := 0, unprocessedWeight := 0,
    processed := [], unprocessed := [], dirty := true }

/-- A Clean two-centroid digest whose last centroid absorbed two samples
(samples 1, 2, 4 with 2 and 4 merged into mean 3, weight 2): `min = 1`,
`max = 4`, last processed mean 3 strictly below `max`. -/
def stQ : TDigestState :=
  { min := 1, max := 4, processedWeight := 3, unprocessedWeight := 0,
    processed := [{ mean := 1, weight := 1 }, { mean := 3, weight := 2 }],
    unprocessed := [], dirty := false }

/-- The state after `add(v)` on a fresh digest, for a generic sample value
`v` (generalises `st5`/`st1`). -/
def singleAdded (v : ℚ) : TDigestState :=
  { min := dblMax, max := dblMin, processedWeight := 0, unprocessedWeight := 1,
    processed := [], unprocessed := [{ mean := v, weight := 1 }], dirty := true }

/-- What `process` produces from `singleAdded v` for EVERY scale pair with
`integratedQ 1 ≤ 1`: the seeded first element is iterated over again, and
since `1 + 1 ≤ processedWeight * integratedQ 1 ≤ 1` fails, the duplicate is
pushed as a second cluster (generalises `d5`/`d1`). -/
def singleProcessed (v : ℚ) : TDigestState :=
  { min := min dblMax v, max := max dblMin v, processedWeight := 1,
    unprocessedWeight := 0,
    processed := [{ mean := v, weight := 1 }, { mean := v, weight := 1 }],
    unprocessed := [], dirty := false }

/-! ### Structural lemmas -/

/-- `Centroid::add` only moves the mean up when folding in a centroid of
larger-or-equal mean (exact arithmetic). -/
theorem centroidAdd_mean_ge {a c : Centroid} (ha : 0 < a.weight) (hc : 0 < c.weight)
    (h : a.mean ≤ c.mean) : a.mean ≤ (centroidAdd a c).mean := by
  have hw : 0 < a.weight + c.weight := by linarith
  have hnn : 0 ≤ c.weight * (c.mean - a.mean) / (a.weight + c.weight) :=
    div_nonneg (mul_nonneg hc.le (by linarith)) hw.le
  simp only [centroidAdd]
  linarith

/-- `Centroid::add` keeps the mean at most the folded-in centroid's mean. -/
theorem centroidAdd_mean_le {a c : Centroid} (ha : 0 < a.weight) (hc : 0 < c.weight)
    (h : a.mean ≤ c.mean) : (centroidAdd a c).mean ≤ c.mean := by
  have hw : 0 < a.weight + c.weight := by linarith
  have h2 : c.weight * (c.mean - a.mean) / (a.weight + c.weight) ≤ c.mean - a.mean := by
    rw [div_le_iff₀ hw]
    nlinarith
  simp only [centroidAdd]
  linarith

/-- The fuelled two-way merge is a permutation of the concatenation. -/
theorem mergeFuel_perm : ∀ (n : ℕ) (l1 l2 : List Centroid),
    List.Perm (mergeFuel n l1 l2) (l1 ++ l2) := by
  intro n
  induction n with
  | zero => intro l1 l2; simp [mergeFuel]
  | succ n ih =>
    intro l1 l2
    match l1, l2 with
    | [], l2 => simp [mergeFuel]
    | a :: l1, [] => simp [mergeFuel]
    | a :: l1, b :: l2 =>
      simp only [mergeFuel]
      split
      · exact ((ih (a :: l1) l2).cons b).trans List.perm_middle.symm
      · exact (ih l1 (b :: l2)).cons a

/-- The fuelled two-way merge of sorted lists is sorted (given enough fuel). -/
theorem mergeFuel_sorted : ∀ (n : ℕ) (l1 l2 : List Centroid),
    l1.length + l2.length ≤ n → List.Sorted meanLE l1 → List.Sorted meanLE l2 →
    List.Sorted meanLE (mergeFuel n l1 l2) := by
  intro n
  induction n with
  | zero =>
    intro l1 l2 hn h1 h2
    match l1, l2 with
    | [], [] => simp [mergeFuel]
    | a :: l1, _ => simp at hn
    | _, b :: l2 => simp at hn
  | succ n ih =>
    intro l1 l2 hn h1 h2
    match l1, l2 with
    | [], l2 => simpa [mergeFuel] using h2
    | a :: l1, [] => simpa [mergeFuel] using h1
    | a :: l1, b :: l2 =>
      simp only [mergeFuel]
      split
      · rename_i hba
        rw [List.sorted_cons]
        refine ⟨?_, ?_⟩
        · intro x hx
          have hx2 := (mergeFuel_perm n (a :: l1) l2).mem_iff.1 hx
          rcases List.mem_append.1 hx2 with hx3 | hx3
          · rcases List.mem_cons.1 hx3 with rfl | hx4
            · exact le_of_lt hba
            · exact le_trans (le_of_lt hba) (List.rel_of_sorted_cons h1 x hx4)
          · exact List.rel_of_sorted_cons h2 x hx3
        · refine ih (a :: l1) l2 ?_ h1 h2.of_cons
          simp only [List.length_cons] at hn ⊢
          omega
      · rename_i hba
        rw [List.sorted_cons]
        refine ⟨?_, ?_⟩
        · intro x hx
          have hx2 := (mergeFuel_perm n l1 (b :: l2)).mem_iff.1 hx
          rcases List.mem_append.1 hx2 with hx3 | hx3
          · exact List.rel_of_sorted_cons h1 x hx3
          · have hab : a.mean ≤ b.mean := le_of_not_lt hba
            rcases List.mem_cons.1 hx3 with rfl | hx4
            · exact hab
            · exact le_trans hab (List.rel_of_sorted_cons h2 x hx4)
        · refine ih l1 (b :: l2) ?_ h1.of_cons h2
          simp only [List.length_cons] at hn ⊢
          omega

/-- `mergeByMean` is a permutation of the concatenation. -/
theorem mergeByMean_perm (l1 l2 : List Centroid) :
    List.Perm (mergeByMean l1 l2) (l1 ++ l2) :=
  mergeFuel_perm _ l1 l2

/-- `mergeByMean` of two sorted lists is sorted. -/
theorem mergeByMean_sorted {l1 l2 : List Centroid} (h1 : List.Sorted meanLE l1)
    (h2 : List.Sorted meanLE l2) : List.Sorted meanLE (mergeByMean l1 l2) :=
  mergeFuel_sorted _ l1 l2 le_rfl h1 h2

/-- The fold underlying `kwayMerge` is a permutation of the accumulator
followed by all sources. -/
theorem foldl_mergeByMean_perm : ∀ (ls : List (List Centroid)) (acc : List Centroid),
    List.Perm (ls.foldl mergeByMean acc) (acc ++ ls.flatten) := by
  intro ls
  induction ls with
  | nil => intro acc; simp
  | cons l ls ih =>
    intro acc
    have h1 : (l :: ls).foldl mergeByMean acc = ls.foldl mergeByMean (mergeByMean acc l) := rfl
    rw [h1]
    refine (ih (mergeByMean acc l)).trans ?_
    have h2 : List.Perm (mergeByMean acc l ++ ls.flatten) ((acc ++ l) ++ ls.flatten) :=
      (mergeByMean_perm acc l).append_right ls.flatten
    refine h2.trans ?_
    simp

/-- The fold underlying `kwayMerge` preserves sortedness. -/
theorem foldl_mergeByMean_sorted : ∀ (ls : List (List Centroid)) (acc : List Centroid),
    List.Sorted meanLE acc → (∀ l ∈ ls, List.Sorted meanLE l) →
    List.Sorted meanLE (ls.foldl mergeByMean acc) := by
  intro ls
  induction ls with
  | nil => intro acc h _; exact h
  | cons l ls ih =>
    intro acc h hl
    exact ih (mergeByMean acc l) (mergeByMean_sorted h (hl l (List.mem_cons_self l ls)))
      fun x hx => hl x (List.mem_cons_of_mem l hx)

/-- `kwayMerge` of sorted sources is sorted. -/
theorem kwayMerge_sorted {ls : List (List Centroid)} (h : ∀ l ∈ ls, List.Sorted meanLE l) :
    List.Sorted meanLE (kwayMerge ls) :=
  foldl_mergeByMean_sorted ls [] List.sorted_nil h

/-- `kwayMerge` is a permutation of the concatenation of the sources. -/
theorem kwayMerge_perm (ls : List (List Centroid)) :
    List.Perm (kwayMerge ls) ls.flatten := by
  simpa using foldl_mergeByMean_perm ls []

/-- In a sorted list the head mean is a lower bound. -/
theorem firstMean_le_of_sorted {l : List Centroid} (h : List.Sorted meanLE l) :
    ∀ c ∈ l, firstMean l ≤ c.mean := by
  cases l with
  | nil => simp
  | cons a t =>
    intro c hc
    rcases List.mem_cons.1 hc with rfl | hc2
    · exact le_refl _
    · exact List.rel_of_sorted_cons h c hc2

/-- `lastMean` of a nonempty list is the mean of one of its members. -/
theorem lastMean_mem : ∀ (l : List Centroid), l ≠ [] → ∃ c ∈ l, lastMean l = c.mean := by
  intro l
  induction l with
  | nil => intro h; exact absurd rfl h
  | cons a t ih =>
    intro _
    cases t with
    | nil => exact ⟨a, List.mem_cons_self a [], rfl⟩
    | cons b t2 =>
      obtain ⟨c, hc, he⟩ := ih (by simp)
      exact ⟨c, List.mem_cons_of_mem a hc, he⟩

/-- In a sorted list the last mean is an upper bound. -/
theorem le_lastMean_of_sorted : ∀ {l : List Centroid}, List.Sorted meanLE l →
    ∀ c ∈ l, c.mean ≤ lastMean l := by
  intro l
  induction l with
  | nil => intro _ c hc; cases hc
  | cons a t ih =>
    intro h c hc
    cases t with
    | nil =>
      rcases List.mem_cons.1 hc with rfl | hc2
      · exact le_refl _
      · cases hc2
    | cons b t2 =>
      have hl : lastMean (a :: b :: t2) = lastMean (b :: t2) := rfl
      rcases List.mem_cons.1 hc with rfl | hc2
      · obtain ⟨m, hm, he⟩ := lastMean_mem (b :: t2) (by simp)
        rw [hl, he]
        exact List.rel_of_sorted_cons h m hm
      · rw [hl]
        exact ih h.of_cons c hc2

/-- Invariant of the greedy clustering loop: from a sorted input whose means
all dominate the current cluster's mean, with positive weights throughout and
a sorted accumulator below the current cluster, the loop produces a sorted
list of positive-weight clusters.  Holds for every scale pair and every
`wSoFar`/`wLimit`, since those only decide where clusters are cut. -/
theorem clusterLoop_inv (sf : ScaleFns) (pw : ℚ) :
    ∀ (l : List Centroid) (cur : Centroid) (done : List Centroid) (wS wL : ℚ),
      List.Sorted meanLE l →
      (∀ x ∈ l, cur.mean ≤ x.mean) →
      (∀ x ∈ l, 0 < x.weight) →
      0 < cur.weight →
      (∀ d ∈ done, 0 < d.weight) →
      List.Sorted meanLE (done.reverse ++ [cur]) →
      List.Sorted meanLE (clusterLoop sf pw l cur done wS wL) ∧
        ∀ x ∈ clusterLoop sf pw l cur done wS wL, 0 < x.weight := by
  intro l
  induction l with
  | nil =>
    intro cur done wS wL _ _ _ hcw hdw hsort
    have he : clusterLoop sf pw [] cur done wS wL = done.reverse ++ [cur] := by
      simp [clusterLoop]
    rw [he]
    refine ⟨hsort, ?_⟩
    intro x hx
    rcases List.mem_append.1 hx with hx2 | hx2
    · exact hdw x (List.mem_reverse.1 hx2)
    · rw [List.mem_singleton.1 hx2]
      exact hcw
  | cons c rest ih =>
    intro cur done wS wL hsl hub hpos hcw hdw hsort
    have hcm : cur.mean ≤ c.mean := hub c (List.mem_cons_self c rest)
    have hcp : 0 < c.weight := hpos c (List.mem_cons_self c rest)
    simp only [clusterLoop]
    split
    · -- fold `c` into the current cluster
      refine ih (centroidAdd cur c) done (wS + c.weight) wL hsl.of_cons ?_ ?_ ?_ hdw ?_
      · intro x hx
        exact le_trans (centroidAdd_mean_le hcw hcp hcm) (List.rel_of_sorted_cons hsl x hx)
      · intro x hx
        exact hpos x (List.mem_cons_of_mem c hx)
      · have : 0 < cur.weight + c.weight := by linarith
        simpa [centroidAdd] using this
      · have hsort2 : List.Pairwise meanLE (done.reverse ++ [cur]) := hsort
        rw [List.pairwise_append] at hsort2
        show List.Pairwise meanLE (done.reverse ++ [centroidAdd cur c])
        rw [List.pairwise_append]
        refine ⟨hsort2.1, List.pairwise_singleton _ _, ?_⟩
        intro a ha b hb
        rw [List.mem_singleton.1 hb]
        have h1 : meanLE a cur := hsort2.2.2 a ha cur (List.mem_singleton.2 rfl)
        exact le_trans h1 (centroidAdd_mean_ge hcw hcp hcm)
    · -- close the current cluster and start a new one at `c`
      refine ih c (cur :: done) (wS + c.weight) _ hsl.of_cons ?_ ?_ hcp ?_ ?_
      · intro x hx
        exact List.rel_of_sorted_cons hsl x hx
      · intro x hx
        exact hpos x (List.mem_cons_of_mem c hx)
      · intro d hd
        rcases List.mem_cons.1 hd with rfl | hd2
        · exact hcw
        · exact hdw d hd2
      · have hsort2 : List.Pairwise meanLE (done.reverse ++ [cur]) := hsort
        rw [List.reverse_cons]
        show List.Pairwise meanLE (done.reverse ++ [cur] ++ [c])
        rw [List.pairwise_append]
        refine ⟨hsort2, List.pairwise_singleton _ _, ?_⟩
        intro a ha b hb
        rw [List.mem_singleton.1 hb]
        rw [List.pairwise_append] at hsort2
        rcases List.mem_append.1 ha with ha2 | ha2
        · have h1 : meanLE a cur := hsort2.2.2 a ha2 cur (List.mem_singleton.2 rfl)
          exact le_trans h1 hcm
        · rw [List.mem_singleton.1 ha2]
          exact hcm

/-- The combined buffer built by `process` is a permutation of
`unprocessed ++ processed`. -/
theorem combined_perm (st : TDigestState) :
    List.Perm (mergeByMean (List.insertionSort meanLE st.unprocessed) st.processed)
      (st.unprocessed ++ st.processed) :=
  (mergeByMean_perm _ _).trans
    ((List.perm_insertionSort meanLE st.unprocessed).append_right st.processed)

/-- `process` (when it succeeds) preserves the structural invariant; the
resulting state is Clean, its buffer empty, and — key for the `min`/`max`
bracket — its processed means all lie between the new `min` and `max`. -/
theorem processState_inv {sf : ScaleFns} {st st2 : TDigestState}
    (h : processState sf st = some st2) (hinv : Inv st) : Inv st2 := by
  unfold processState at h
  by_cases hd : st.dirty = false
  · rw [if_pos hd] at h
    cases h
    exact hinv
  · rw [if_neg hd] at h
    cases hcomb : mergeByMean (List.insertionSort meanLE st.unprocessed) st.processed with
    | nil => rw [hcomb] at h; cases h
    | cons c0 rest =>
      rw [hcomb] at h
      have hsortc : List.Sorted meanLE (c0 :: rest) := by
        rw [← hcomb]
        exact mergeByMean_sorted (List.sorted_insertionSort meanLE st.unprocessed) hinv.1
      have hposc : ∀ x ∈ c0 :: rest, 0 < x.weight := by
        intro x hx
        have hx2 : x ∈ st.unprocessed ++ st.processed := by
          refine ((combined_perm st).mem_iff).1 ?_
          rw [hcomb]; exact hx
        rcases List.mem_append.1 hx2 with hx3 | hx3
        · exact hinv.2.2.1 x hx3
        · exact hinv.2.1 x hx3
      have hcl := clusterLoop_inv sf (st.processedWeight + st.unprocessedWeight) (c0 :: rest) c0
        [] c0.weight ((st.processedWeight + st.unprocessedWeight) * sf.integratedQ 1)
        hsortc (firstMean_le_of_sorted hsortc) hposc
        (hposc c0 (List.mem_cons_self c0 rest)) (by intro d hd; cases hd)
        (by simp)
      cases h
      refine ⟨hcl.1, hcl.2, ?_, ?_⟩
      · intro c hc
        cases hc
      · intro _ c hc
        refine ⟨le_trans (min_le_right _ _) (firstMean_le_of_sorted hcl.1 c hc), ?_⟩
        exact le_trans (le_lastMean_of_sorted hcl.1 c hc) (le_max_right _ _)

/-- `processIfNecessary` (= `compress()`) preserves the structural invariant. -/
theorem processIfNecessary_inv {sf : ScaleFns} {p : Params} {st st2 : TDigestState}
    (h : processIfNecessary sf p st = some st2) (hinv : Inv st) : Inv st2 := by
  unfold processIfNecessary at h
  split at h
  · exact processState_inv h hinv
  · cases h
    exact hinv

/-- The k-way merge of `mergeProcessed` (when it succeeds) yields a sorted
list of positive-weight centroids, given sorted positive inputs. -/
theorem mergeProcessedModel_inv {others : List TDigestState} {st : TDigestState}
    {proc : List Centroid} {pw : ℚ}
    (h : mergeProcessedModel others st = some (proc, pw))
    (hos : ∀ o ∈ others, List.Sorted meanLE o.processed ∧ ∀ c ∈ o.processed, 0 < c.weight)
    (hs : List.Sorted meanLE st.processed)
    (hw : ∀ c ∈ st.processed, 0 < c.weight) :
    List.Sorted meanLE proc ∧ ∀ c ∈ proc, 0 < c.weight := by
  unfold mergeProcessedModel at h
  split at h
  · cases h
  · have hsrc : ∀ l ∈ ((others.map TDigestState.processed).filter fun l => !l.isEmpty) ++
        [st.processed], List.Sorted meanLE l ∧ ∀ c ∈ l, 0 < c.weight := by
      intro l hl
      rcases List.mem_append.1 hl with hl2 | hl2
      · obtain ⟨o, ho, rfl⟩ := List.mem_map.1 (List.mem_of_mem_filter hl2)
        exact hos o ho
      · rw [List.mem_singleton.1 hl2]
        exact ⟨hs, hw⟩
    have hinj := Option.some.inj h
    have hproc : kwayMerge (((others.map TDigestState.processed).filter fun l => !l.isEmpty) ++
        [st.processed]) = proc := congrArg Prod.fst hinj
    constructor
    · rw [← hproc]
      exact kwayMerge_sorted fun l hl => (hsrc l hl).1
    · intro c hc
      rw [← hproc] at hc
      have hc2 := (kwayMerge_perm _).mem_iff.1 hc
      obtain ⟨l, hl, hcl⟩ := List.mem_flatten.1 hc2
      exact (hsrc l hl).2 c hcl

/-- Every reachable digest state satisfies the structural invariant. -/
theorem reachable_inv {sf : ScaleFns} {p : Params} {st : TDigestState}
    (h : Reachable sf p st) : Inv st := by
  induction h with
  | fresh sf p =>
    refine ⟨List.sorted_nil, ?_, ?_, ?_⟩
    · intro c hc; cases hc
    · intro c hc; cases hc
    · intro _ c hc; cases hc
  | addStep x hr heq ih =>
    rename_i sf p st b st2
    cases x with
    | none =>
      have h2 : some st = some st2 := congrArg Prod.snd heq
      cases h2
      exact ih
    | some v =>
      have h2 : processIfNecessary sf p
          { st with unprocessed := st.unprocessed ++ [{ mean := v, weight := 1 }],
                    unprocessedWeight := st.unprocessedWeight + 1,
                    dirty := true } = some st2 := congrArg Prod.snd heq
      refine processIfNecessary_inv h2 ⟨ih.1, ih.2.1, ?_, ?_⟩
      · intro c hc
        rcases List.mem_append.1 hc with hc2 | hc2
        · exact ih.2.2.1 c hc2
        · rw [List.mem_singleton.1 hc2]
          norm_num
      · intro hfalse c hc
        cases hfalse
  | mergeStep others osf op hr hos heq ihSelf ihOthers =>
    rename_i sf p st st2
    unfold addDigests at heq
    split at heq
    · cases heq
      exact ihSelf
    · cases hm : mergeProcessedModel others st with
      | none => rw [hm] at heq; cases heq
      | some pr =>
        obtain ⟨proc, pw⟩ := pr
        rw [hm] at heq
        have hpp := mergeProcessedModel_inv hm
          (fun o ho => ⟨(ihOthers o ho).1, (ihOthers o ho).2.1⟩) ihSelf.1 ihSelf.2.1
        refine processIfNecessary_inv heq ⟨hpp.1, hpp.2, ?_, ?_⟩
        · intro c hc
          rcases List.mem_append.1 hc with hc2 | hc2
          · exact ihSelf.2.2.1 c hc2
          · obtain ⟨l, hl, hcl⟩ := List.mem_flatten.1 hc2
            obtain ⟨o, ho, rfl⟩ := List.mem_map.1 hl
            exact (ihOthers o ho).2.2.1 c hcl
        · intro hfalse c hc
          cases hfalse
  | compressStep hr heq ih => exact processIfNecessary_inv heq ih
  | queryStep hr heq ih => exact processState_inv heq ih

/-! ### Auxiliary facts about `process` and reachability of concrete states -/

/-- On a Clean digest, `process` returns immediately without touching any
field (line 366). -/
theorem processState_clean {sf : ScaleFns} {st : TDigestState} (hd : st.dirty = false) :
    processState sf st = some st := by
  unfold processState
  rw [hd]
  rfl

/-- On a Dirty digest whose combined buffer is nonempty, `process` runs the
full compress and produces the `processedFrom` state. -/
theorem processState_eq_of_dirty {sf : ScaleFns} {st : TDigestState} {c0 : Centroid}
    {rest : List Centroid} (hd : st.dirty = true)
    (hcomb : mergeByMean (List.insertionSort meanLE st.unprocessed) st.processed = c0 :: rest) :
    processState sf st = some (processedFrom sf st c0 rest) := by
  unfold processState
  rw [hd, hcomb]
  rfl

/-- One step of the clustering loop on a single-element buffer whose fold
test fails: the seed is re-emitted as its own cluster. -/
theorem clusterLoop_single (sf : ScaleFns) (pw wL : ℚ) (c : Centroid)
    (h : ¬ c.weight + c.weight ≤ wL) :
    clusterLoop sf pw [c] c [] c.weight wL = [c, c] := by
  simp only [clusterLoop]
  rw [if_neg h]
  rfl

/-- For EVERY scale pair whose `integratedQ 1 ≤ 1` — the source's sine-based
`(sin _ + 1) / 2` satisfies this — `process` on a fresh digest holding one
sample `v` yields TWO centroids `(v, 1)` with `processedWeight = 1`: the
concrete runs below do not depend on the stub scale pair. -/
theorem processState_single_sample (sf : ScaleFns) (hsf : sf.integratedQ 1 ≤ 1) (v : ℚ) :
    processState sf (singleAdded v) = some (singleProcessed v) := by
  have hcomb : mergeByMean (List.insertionSort meanLE (singleAdded v).unprocessed)
      (singleAdded v).processed = [{ mean := v, weight := 1 }] := rfl
  rw [processState_eq_of_dirty rfl hcomb]
  have hcond : ¬ ({ mean := v, weight := 1 } : Centroid).weight +
      ({ mean := v, weight := 1 } : Centroid).weight ≤
      ((singleAdded v).processedWeight + (singleAdded v).unprocessedWeight) *
        sf.integratedQ 1 := by
    show ¬ (1 + 1 : ℚ) ≤ (0 + 1) * sf.integratedQ 1
    rw [zero_add, one_mul]
    intro hcon
    linarith
  unfold processedFrom
  rw [clusterLoop_single sf ((singleAdded v).processedWeight + (singleAdded v).unprocessedWeight)
    (((singleAdded v).processedWeight + (singleAdded v).unprocessedWeight) * sf.integratedQ 1)
    { mean := v, weight := 1 } hcond]
  norm_num [singleAdded, singleProcessed, firstMean, lastMean]

/-- For every scale pair with `integratedQ 1 ≤ 1`, the C2 counterexample
state `stBad` is reachable: build the two single-sample digests, compress
each through a query, and merge. -/
theorem reach_stBad_general (sf : ScaleFns) (hsf : sf.integratedQ 1 ≤ 1) :
    Reachable sf p2 stBad := by
  have h5a : Reachable sf p2 st5 :=
    @Reachable.addStep sf p2 freshState (some 5) true st5 (Reachable.fresh sf p2) rfl
  have h5 : Reachable sf p2 d5 := by
    refine Reachable.queryStep h5a ?_
    have h0 := processState_single_sample sf hsf 5
    rw [show singleProcessed 5 = d5 by decide] at h0
    exact h0
  have h1a : Reachable sf p2 st1 :=
    @Reachable.addStep sf p2 freshState (some 1) true st1 (Reachable.fresh sf p2) rfl
  have h1 : Reachable sf p2 d1 := by
    refine Reachable.queryStep h1a ?_
    have h0 := processState_single_sample sf hsf 1
    rw [show singleProcessed 1 = d1 by decide] at h0
    exact h0
  refine Reachable.mergeStep [d1] (fun _ => sf) (fun _ => p2) h5 ?_ rfl
  intro o ho
  have h2 := List.mem_singleton.1 ho
  subst h2
  exact h1

/-- For every scale pair with `integratedQ 1 ≤ 1`, the single-sample query
results are those of C10 — in particular `cdf(5.0)` returns `(0, true)`,
not `(0.5, true)` — independently of the stub. -/
theorem single_sample_queries_general (sf : ScaleFns) (hsf : sf.integratedQ 1 ≤ 1) :
    quantileModel sf st5 (1 / 2) = some (5, true, d5) ∧
      cdfModel sf st5 5 = some (0, true, d5) := by
  have h : processState sf st5 = some d5 := by
    have h0 := processState_single_sample sf hsf 5
    rw [show singleProcessed 5 = d5 by decide] at h0
    exact h0
  constructor
  · unfold quantileModel
    rw [h]
    rfl
  · unfold cdfModel
    rw [h]
    rfl

/-- `add(5.0)` on a fresh digest reaches `st5` (compression 1). -/
theorem reach_st5_p1 : Reachable stubScale p1 st5 :=
  @Reachable.addStep stubScale p1 freshState (some 5) true st5
    (Reachable.fresh stubScale p1) (by decide)

/-- `add(5.0)` on a fresh digest reaches `st5` (compression 2). -/
theorem reach_st5_p2 : Reachable stubScale p2 st5 :=
  @Reachable.addStep stubScale p2 freshState (some 5) true st5
    (Reachable.fresh stubScale p2) (by decide)

/-- `add(5.0)` then a query-forced `process()` reaches `d5`. -/
theorem reach_d5_p2 : Reachable stubScale p2 d5 :=
  Reachable.queryStep reach_st5_p2 (by decide)

/-- `add(1.0)` then a query-forced `process()` reaches `d1`. -/
theorem reach_d1_p2 : Reachable stubScale p2 d1 :=
  Reachable.queryStep
    (@Reachable.addStep stubScale p2 freshState (some 1) true st1
      (Reachable.fresh stubScale p2) (by decide)) (by decide)

/-- `d5.merge(d1)` reaches `stBad` (compression 2: the four merged centroids
do not exceed `maxProcessed = 4`, so no compress is triggered). -/
theorem reach_stBad : Reachable stubScale p2 stBad :=
  reach_stBad_general stubScale (by norm_num [stubScale])

/-! ### The claims -/

/-- C1, counterexample: a reachable Dirty digest (fresh, one `add(5.0)`,
under capacity) on which an explicit `compress()` — whose whole body is
`processIfNecessary()` — changes nothing: the digest stays Dirty and no
compress algorithm runs.  This refutes "an explicit call to compress()
performs the full compress algorithm and transitions the digest to Clean". -/
theorem C1_counterexample :
    Reachable stubScale p1 st5 ∧ st5.dirty = true ∧
      processIfNecessary stubScale p1 st5 = some st5 :=
  ⟨reach_st5_p1, rfl, by decide⟩

/-- C1 (amended): `compress()` delegates to `processIfNecessary`, so it runs
the full compress algorithm — and then transitions to Clean — exactly when a
buffer is over capacity (`unprocessed.length > maxUnprocessed` or
`processed.length > maxProcessed`) and the digest is Dirty; when under
capacity it is a no-op even on a Dirty digest, and when Clean it is always a
no-op. -/
theorem C1_compress_capacity (sf : ScaleFns) (p : Params) (st : TDigestState) :
    (st.dirty = true → overCapacity p st = true →
      ∃ st2, processIfNecessary sf p st = some st2 ∧ st2.dirty = false ∧
        processState sf st = some st2) ∧
    (overCapacity p st = false → processIfNecessary sf p st = some st) ∧
    (st.dirty = false → processIfNecessary sf p st = some st) := by
  refine ⟨?_, ?_, ?_⟩
  · intro hd hoc
    have hoc2 : p.maxUnprocessed < st.unprocessed.length ∨
        p.maxProcessed < st.processed.length := by
      have hoc3 := hoc
      unfold overCapacity at hoc3
      rw [Bool.or_eq_true] at hoc3
      rcases hoc3 with h1 | h1
      · exact Or.inl (of_decide_eq_true h1)
      · exact Or.inr (of_decide_eq_true h1)
    have hne : mergeByMean (List.insertionSort meanLE st.unprocessed) st.processed ≠ [] := by
      intro hnil
      have hlen := (combined_perm st).length_eq
      rw [hnil, List.length_append] at hlen
      simp only [List.length_nil] at hlen
      omega
    cases hcomb : mergeByMean (List.insertionSort meanLE st.unprocessed) st.processed with
    | nil => exact absurd hcomb hne
    | cons c0 rest =>
      have hps := @processState_eq_of_dirty sf st c0 rest hd hcomb
      refine ⟨processedFrom sf st c0 rest, ?_, rfl, hps⟩
      unfold processIfNecessary
      rw [hoc]
      exact hps
  · intro hoc
    unfold processIfNecessary
    rw [hoc]
    rfl
  · intro hd
    unfold processIfNecessary
    split
    · exact processState_clean hd
    · rfl

/-- C1 witness for the amended statement: `stOver` is Dirty and over the
explicit capacity `pTiny`, and `compress()` there does run the full compress
and leaves a Clean digest; `st5` is under capacity and is left untouched. -/
theorem C1_compress_capacity_witness :
    (stOver.dirty = true ∧ overCapacity pTiny stOver = true ∧
      ∃ st2, processIfNecessary stubScale pTiny stOver = some st2 ∧ st2.dirty = false ∧
        processState stubScale stOver = some st2) ∧
    (overCapacity p1 st5 = false ∧ processIfNecessary stubScale p1 st5 = some st5) :=
  ⟨⟨rfl, by decide, (C1_compress_capacity stubScale pTiny stOver).1 rfl (by decide)⟩,
    ⟨by decide, (C1_compress_capacity stubScale p1 st5).2.1 (by decide)⟩⟩

/-- C2, counterexample: `stBad` is reachable (two single-sample digests each
compressed once, then `merge`) and — the merge having updated the processed
list but neither `min` nor `max`, and not having triggered a compress — its
processed list holds centroids of mean 1 strictly below `min = 5`.  The
invariant `min ≤ every processed mean ≤ max` therefore does NOT hold after
every merge on a digest that has data and has been compressed.
(`reach_stBad_general` shows the run takes the same branches for every scale
pair with `integratedQ 1 ≤ 1`, the source's sine-based pair included.) -/
theorem C2_counterexample :
    Reachable stubScale p2 stBad ∧
      ¬ ∀ c ∈ stBad.processed, stBad.min ≤ c.mean ∧ c.mean ≤ stBad.max :=
  ⟨reach_stBad, by decide⟩

/-- C2 (amended): in every CLEAN reachable state — so after every compress,
after every query, and after any add/merge that triggered a compress — every
processed centroid mean lies between `min` and `max`; a merge that does not
trigger a compress can leave processed means outside `[min, max]` until the
next compress. -/
theorem C2_minmax_clean (sf : ScaleFns) (p : Params) (st : TDigestState)
    (h : Reachable sf p st) (hclean : st.dirty = false) :
    ∀ c ∈ st.processed, st.min ≤ c.mean ∧ c.mean ≤ st.max :=
  (reachable_inv h).2.2.2 hclean

/-- C2 witness: the Clean reachable state `d5` satisfies the bracket at its
first centroid. -/
theorem C2_minmax_clean_witness :
    d5.dirty = false ∧ d5.min ≤ (Centroid.mk 5 1).mean ∧ (Centroid.mk 5 1).mean ≤ d5.max :=
  ⟨rfl, C2_minmax_clean stubScale p2 d5 reach_d5_p2 rfl (Centroid.mk 5 1) (by decide)⟩

/-- C3, counterexample: `quantile` first calls `process()` and only then
validates `q` (lines 207-219), so `quantile(2.0)` on the reachable Dirty
state `st5` returns failure but compresses the digest: the unprocessed list
is folded away, weights move, `min`/`max` change and the Dirty flag clears.
This refutes "quantile(q) with invalid q mutates no digest state". -/
theorem C3_counterexample :
    Reachable stubScale p1 st5 ∧ st5.dirty = true ∧
      quantileModel stubScale st5 2 = some (0, false, d5) ∧ d5 ≠ st5 :=
  ⟨reach_st5_p1, rfl, by decide, by decide⟩

/-- C3 (amended): for `q < 0` or `q > 1`, `quantile(q)` always returns
`(0.0, failure)`, and the only state change is the `process()` that every
`quantile` call performs first; on a Clean digest no state is mutated. -/
theorem C3_invalid_q (sf : ScaleFns) (st : TDigestState) (q : ℚ) (hq : q < 0 ∨ 1 < q) :
    (∀ v b st2, quantileModel sf st q = some (v, b, st2) →
      v = 0 ∧ b = false ∧ processState sf st = some st2) ∧
    (st.dirty = false → quantileModel sf st q = some (0, false, st)) := by
  have hqp : ∀ s : TDigestState, quantileProcessed s q = (0, false) := by
    intro s
    unfold quantileProcessed
    rw [if_pos hq]
  constructor
  · intro v b st2 h
    unfold quantileModel at h
    cases hps : processState sf st with
    | none => rw [hps] at h; cases h
    | some s2 =>
      rw [hps] at h
      simp only [hqp s2] at h
      have h2 := Option.some.inj h
      simp only [Prod.mk.injEq] at h2
      exact ⟨h2.1.symm, h2.2.1.symm, by rw [h2.2.2]⟩
  · intro hd
    unfold quantileModel
    rw [processState_clean hd]
    show some ((quantileProcessed st q).1, (quantileProcessed st q).2, st) = some (0, false, st)
    rw [hqp st]

/-- C3 witness: `q = 2` on the Clean empty fresh digest fails with no state
change. -/
theorem C3_invalid_q_witness :
    ((2:ℚ) < 0 ∨ (1:ℚ) < 2) ∧
      quantileModel stubScale freshState 2 = some (0, false, freshState) :=
  ⟨Or.inr (by norm_num),
    (C3_invalid_q stubScale freshState 2 (Or.inr (by norm_num))).2 rfl⟩

/-- C4: `process()` on a digest with both lists empty and the Dirty flag set
evaluates `unprocessed_[0]` on an empty vector (line 377) — the `none` here
models exactly that out-of-bounds access, refuting the claimed guarded no-op
(the spec explicitly requires implementations to guard this case); with the
flag clear the early return does make it a no-op. -/
theorem C4_process_empty_oob :
    processState stubScale stEmptyDirty = none ∧
      processState stubScale freshState = some freshState :=
  ⟨by decide, by decide⟩

/-- C5: `mergeProcessed` pushes the cursor for the digest's OWN processed
list unconditionally (line 343), so whenever that list is empty — e.g. when
a fresh digest merges any other digest — the queue comparator/pop loop
dereference an end iterator.  `none` models that out-of-bounds read: it
occurs merging a fresh digest into a fresh digest, in the full merge
(`add(vector)`), and also when the other digest has data. -/
theorem C5_kway_own_empty_oob :
    mergeProcessedModel [freshState] freshState = none ∧
      addDigests stubScale p1 [freshState] freshState = none ∧
      mergeProcessedModel [d5] freshState = none :=
  ⟨by decide, by decide, by decide⟩

/-- C6: on `stQ` (processed `[(1,1),(3,2)]`, `W = 3`, `min = 1`, `max = 4`,
e.g. a digest over samples 1, 2, 4 whose compress merged 2 and 4), both
`q = 0.8` (index 2.4) and `q = 0.9` (index 2.7) fall in the final
half-weight segment (boundary `W - w/2 = 2`) and `quantile` returns exactly
`max = 4` for both — not an interpolation between the last mean 3 and 4
weighted by the remaining index distances (which would give two distinct
values strictly below 4).  Cause: line 260 computes
`z1 = index - processedWeight_ - w/2` instead of
`index - (processedWeight_ - w/2)`, so `z1 < 0`, the weighted average
overshoots above `max`, and the clamp returns `max`. -/
theorem C6_final_segment_returns_max :
    quantileModel stubScale stQ (8 / 10) = some (4, true, stQ) ∧
      quantileModel stubScale stQ (9 / 10) = some (4, true, stQ) ∧
      lastMean stQ.processed = 3 ∧ stQ.max = 4 :=
  ⟨by decide, by decide, by decide, rfl⟩

/-- C7: in every reachable digest state — in particular after any sequence
of add and merge operations followed by a compress — the processed list is
sorted ascending by mean.  (Holds for every scale pair; sequences whose
merges hit the C5 out-of-bounds state have no successor state in the model.) -/
theorem C7_processed_sorted (sf : ScaleFns) (p : Params) (st : TDigestState)
    (h : Reachable sf p st) : List.Sorted meanLE st.processed :=
  (reachable_inv h).1

/-- C7 witness: the reachable state `stBad` (add, compress, merge) has a
sorted processed list. -/
theorem C7_processed_sorted_witness : List.Sorted meanLE stBad.processed :=
  C7_processed_sorted stubScale p2 stBad reach_stBad

/-- C8: after `add(5.0)` and the compress forced by any query, the
`processedWeight_` field is 1 — and `totalWeight()` correctly returns 1 —
but the processed list's weights sum to 2: the clustering loop (line 381)
iterates over the whole combined buffer including the already-seeded first
element, double-counting its weight.  This refutes "processedWeight equals
the sum of the weights of the processed centroids" after every compress.
(`processState_single_sample` shows the compress result is the same for
every scale pair with `integratedQ 1 ≤ 1`.) -/
theorem C8_weight_double_count :
    Reachable stubScale p1 st5 ∧ processState stubScale st5 = some d5 ∧
      d5.processedWeight = 1 ∧ (d5.processed.map Centroid.weight).sum = 2 ∧
      totalWeight d5 = 1 :=
  ⟨reach_st5_p1, by decide, rfl, by decide, by decide⟩

/-- C9: `add` tests `isnan` before any mutation (lines 302-304), so
`add(NaN)` returns `false` and the state — every list, both weight sums,
`min`, `max` and the Dirty flag — is exactly the input state. -/
theorem C9_add_nan (sf : ScaleFns) (p : Params) (st : TDigestState) :
    addCentroid sf p none 1 st = (false, some st) := rfl

/-- C10: on a fresh digest after `add(5.0)`: `quantile(0.5)` returns
`(5, true)` and `cdf(4)`/`cdf(6)` return `(0, true)`/`(1, true)` as claimed,
but `cdf(5.0)` returns `(0, true)`, NOT `(0.5, true)`: the compress
duplicates the single sample into two centroids (C8), so the ≥2-centroid
branch of `cdfProcessed` applies and returns 0 at `x ≤ min` (line 147).
(`single_sample_queries_general` shows the same results for every scale
pair with `integratedQ 1 ≤ 1`, the source's sine-based pair included.) -/
theorem C10_single_sample :
    addCentroid stubScale p1 (some 5) 1 freshState = (true, some st5) ∧
      quantileModel stubScale st5 (1 / 2) = some (5, true, d5) ∧
      cdfModel stubScale st5 5 = some (0, true, d5) ∧
      cdfModel stubScale st5 4 = some (0, true, d5) ∧
      cdfModel stubScale st5 6 = some (1, true, d5) :=
  ⟨by decide, by decide, by decide, by decide, by decide⟩

end TDigestSpec
